import Mathlib

/-!
Shallow embedding of the kilocode indexing/search core:

* `SearchEngine` (src/src/types/analytics-types.ts, second half of the file):
  `search`, `performTextSearch`, `performSemanticSearch`, `performHybridSearch`,
  `calculateTextRelevance`, `generateHighlights`, `generateSemanticHighlights`,
  `mergeHighlights`, `extractMatchedContent`, `getElementRelationships`,
  `applyFilters`.
* `CodeIndexer.indexFile` / `storeCodeElement` / `removeFileIndex`
  (src/src/services/indexing/code-indexer.ts) and the wrapping
  `IndexingService.indexFile` (returns an `IndexingResult`).

Strings are embedded as `List Char`; JavaScript numbers as `ℚ` (the scoring
formulas only use +, *, /, min, max on small decimal constants, so exact
rationals track them); SQL rows as Lean structures; the SQLite store as a
`List CodeRow` in row-insertion order.  Wall-clock fields of the source
(`Date.now()` ids, `duration`, `lastModified`, `indexedAt`) are omitted: no
claim mentions them.  The embedding/vector backend is external to the repo
(its `searchVectorEmbeddings` is an explicit stub in the source), so semantic
retrieval is parametrised by an oracle: `none` models a provider call that
throws, `some hits` models a successful provider answer.
-/

/-- JavaScript strings, embedded as lists of characters. -/
abbrev Str := List Char

/-- Convert a Lean string literal into the embedding's string type. -/
def str (s : String) : Str := s.toList

/-- `a.startsWith b` on embedded strings: `b` is an initial segment of `a`. -/
def strStartsWith : Str → Str → Bool
  | _, [] => true
  | [], _ :: _ => false
  | a :: as, b :: bs => a == b && strStartsWith as bs

/-- JS `hay.includes(tok)` / SQL `hay LIKE %tok%`: `tok` occurs in `hay`. -/
def strContains (hay tok : Str) : Bool :=
  (List.range (hay.length + 1)).any (fun i => strStartsWith (hay.drop i) tok)

/-- SQL `hay LIKE %suf`: `hay` ends with `suf`. -/
def strEndsWith (hay suf : Str) : Bool :=
  strStartsWith (hay.drop (hay.length - suf.length)) suf

/-- JS `String.prototype.toLowerCase` (per-character lowering). -/
def lowerStr (s : Str) : Str := s.map Char.toLower

/-- All positions of `hay` at which `tok` matches, in increasing order: the
positions visited by the JS loop `indexOf(tok); indexOf(tok, i + 1); …` in
`generateHighlights`. -/
def occurrences (hay tok : Str) : List Nat :=
  (List.range (hay.length + 1)).filter (fun i => strStartsWith (hay.drop i) tok)

/-- JS `hay.indexOf(sub, start)` (clamping `start` to the length, as JS does),
as an `Option` instead of `-1`. -/
def indexOfFrom (hay sub : Str) (start : Nat) : Option Nat :=
  ((List.range (hay.length + 1)).filter
    (fun i => min start hay.length ≤ i && strStartsWith (hay.drop i) sub)).head?

/-- JS `String.prototype.trim`. -/
def trimStr (s : Str) : Str :=
  ((s.dropWhile Char.isWhitespace).reverse.dropWhile Char.isWhitespace).reverse

/-- JS `s.split(re)` against a one-character-class regex repeated (`/\s+/`,
`/[.!?]+/`): split on maximal runs of separator characters; a leading run
yields a leading empty piece, a trailing run a trailing empty piece, and the
empty string yields one empty piece.  The accumulator is `some piece` while
inside a piece (stored reversed) and `none` while skipping a separator run. -/
def jsSplitAux (p : Char → Bool) : Str → Option Str → List Str
  | [], some cur => [cur.reverse]
  | [], none => [[]]
  | c :: rest, some cur =>
    if p c then cur.reverse :: jsSplitAux p rest none
    else jsSplitAux p rest (some (c :: cur))
  | c :: rest, none =>
    if p c then jsSplitAux p rest none
    else jsSplitAux p rest (some [c])

/-- JS `s.split(separator-class regex)`. -/
def jsSplit (p : Char → Bool) (s : Str) : List Str := jsSplitAux p s (some [])

/-- JS `s.split(/\s+/)`. -/
def jsSplitWS (s : Str) : List Str := jsSplit Char.isWhitespace s

/-- Sentence separators of `generateSemanticHighlights`: `/[.!?]+/`. -/
def sentencePunct (c : Char) : Bool := c == '.' || c == '!' || c == '?'

/-- SQLite `ORDER BY name` comparison on strings: lexicographic by code
point. -/
def strLt : Str → Str → Bool
  | [], [] => false
  | [], _ :: _ => true
  | _ :: _, [] => false
  | a :: as, b :: bs =>
    if a.val < b.val then true else if b.val < a.val then false else strLt as bs

/-! ## Data model (src/unnamed/part_002, `indexing-types`) -/

/-- A row of the `code_index` table, as written by
`CodeIndexer.storeCodeElement` and read by the search SQL.  The wall-clock
columns `last_modified` and `indexed_at` are omitted (no claim mentions
them); `dependencies` is kept as a list (its `JSON.stringify` / `JSON.parse`
round trip in the source is the identity on string arrays). -/
structure CodeRow where
  id : Str
  type : Str
  name : Str
  file_path : Str
  line_number : Nat
  signature : Str
  content : Str
  language : Str
  dependencies : List Str
  tags : List Str
  hash : Str
deriving DecidableEq

/-- `SearchFilters` (indexing-types).  `dateRange` and `authors` are carried
but never read by the engine (their payloads are irrelevant, so they are
embedded as `Option Unit`). -/
structure SearchFilters where
  fileTypes : Option (List Str)
  dateRange : Option Unit
  authors : Option Unit
  elementTypes : Option (List Str)
deriving DecidableEq

/-- The `searchType` union `"text" | "semantic" | "hybrid"`. -/
inductive SearchType where
  | text
  | semantic
  | hybrid
deriving DecidableEq

/-- `SearchQuery` (indexing-types), restricted to the fields the engine's
retrieval logic reads (`userId`, `processedQuery`, `context`, `timestamp`
only flow into the audit insert, which is not modelled). -/
structure SearchQuery where
  id : Str
  queryText : Str
  searchType : SearchType
  filters : Option SearchFilters
deriving DecidableEq

/-- The `matchType` union `"exact" | "semantic" | "fuzzy" | "hybrid"`. -/
inductive MatchType where
  | exact
  | semantic
  | fuzzy
  | hybrid
deriving DecidableEq

/-- `TextHighlight` (indexing-types).  The source field `end` is a Lean
keyword and is embedded as `stop`. -/
structure TextHighlight where
  start : Nat
  stop : Nat
  text : Str
deriving DecidableEq

/-- `SearchResult` (indexing-types), restricted to the fields the engine
computes deterministically (the synthetic `id` field embeds `Date.now()` and
is omitted; `queryId` merely copies `query.id`). -/
structure SearchResult where
  elementId : Str
  relevanceScore : ℚ
  matchType : MatchType
  matchedContent : Str
  relationships : List Str
  highlights : List TextHighlight
  rank : Nat
deriving DecidableEq

/-- `SearchEngineConfig` (analytics-types). -/
structure SearchEngineConfig where
  workspacePath : Str
  dataDirectory : Str
  maxResults : Option Nat
  minScore : Option ℚ
deriving DecidableEq

/-- One element of the vector-store answer used by `performSemanticSearch`
(`result.id`, `result.score`, `result.payload.content`). -/
structure VectorHit where
  id : Str
  score : ℚ
  content : Str
deriving DecidableEq

/-- `this.maxResults = config.maxResults || 50` (JS `||`: `0` is falsy). -/
def effMaxResults (c : SearchEngineConfig) : Nat :=
  match c.maxResults with
  | some n => if n = 0 then 50 else n
  | none => 50

/-- `this.minScore = config.minScore || 0.3` (JS `||`: `0` is falsy). -/
def effMinScore (c : SearchEngineConfig) : ℚ :=
  match c.minScore with
  | some x => if x = 0 then 3 / 10 else x
  | none => 3 / 10

/-! ## SearchEngine helpers (analytics-types.ts) -/

/-- `getElementRelationships`: `SELECT dependencies FROM code_index WHERE
id = ?` (first row in insertion order), defaulting to `[]`. -/
def relationshipsOf (store : List CodeRow) (eid : Str) : List Str :=
  match store.find? (fun r => decide (r.id = eid)) with
  | some r => r.dependencies
  | none => []

/-- `calculateTextRelevance`: the number of query terms contained in a
(lower-cased) field. -/
def countContaining (terms : List Str) (hay : Str) : ℚ :=
  ((terms.filter (fun t => strContains hay t)).length : ℚ)

/-- `calculateTextRelevance(query, element)` (analytics-types.ts 310-337). -/
def calculateTextRelevance (query : Str) (r : CodeRow) : ℚ :=
  let queryTerms := jsSplitWS (lowerStr query)
  let name := lowerStr r.name
  let content := lowerStr r.content
  let signature := lowerStr r.signature
  let maxScore : ℚ := 10
  let nTerms : ℚ := (queryTerms.length : ℚ)
  let base : ℚ :=
    if name = lowerStr query then maxScore
    else countContaining queryTerms name / nTerms * maxScore * (8 / 10)
  let score : ℚ := base
    + countContaining queryTerms content / nTerms * maxScore * (6 / 10)
    + countContaining queryTerms signature / nTerms * maxScore * (4 / 10)
  min (score / maxScore) 1

/-- `mergeHighlights`'s loop body (analytics-types.ts 398-419), carried out
on the already-sorted span list.  Faithful to the source's statement order:
`current.end` is updated to `max(current.end, next.end)` BEFORE
`next.text.substring(current.end - next.start)` is taken. -/
def mergeLoop (current : TextHighlight) : List TextHighlight → List TextHighlight
  | [] => [current]
  | next :: rest =>
    if next.start ≤ current.stop then
      let newStop := max current.stop next.stop
      mergeLoop ⟨current.start, newStop,
        current.text ++ next.text.drop (newStop - next.start)⟩ rest
    else current :: mergeLoop next rest

/-- `mergeHighlights(highlights)`. -/
def mergeHighlights : List TextHighlight → List TextHighlight
  | [] => []
  | h :: rest => mergeLoop h rest

/-- `highlights.sort((a, b) => a.start - b.start)`: stable insertion of one
span into an already start-sorted list. -/
def insertByStart (h : TextHighlight) : List TextHighlight → List TextHighlight
  | [] => [h]
  | x :: xs => if x.start < h.start then x :: insertByStart h xs else h :: x :: xs

/-- `highlights.sort((a, b) => a.start - b.start)` (stable, as ES2019 sort). -/
def sortByStart (l : List TextHighlight) : List TextHighlight :=
  l.foldr insertByStart []

/-- `generateHighlights(query, content)` (analytics-types.ts 342-362): every
case-insensitive occurrence of every query term, sorted by start and merged. -/
def generateHighlights (query content : Str) : List TextHighlight :=
  let queryTerms := jsSplitWS (lowerStr query)
  let lowerContent := lowerStr content
  let highlights := queryTerms.flatMap (fun term =>
    (occurrences lowerContent term).map (fun i =>
      ⟨i, i + term.length, (content.drop i).take term.length⟩))
  mergeHighlights (sortByStart highlights)

/-- `generateSemanticHighlights`'s sentence loop (analytics-types.ts
367-393), tracking `currentPos`. -/
def semanticHighAux (queryTerms : List Str) (content : Str) :
    List Str → Nat → List TextHighlight
  | [], _ => []
  | sentence :: rest, currentPos =>
    let lowerSentence := lowerStr sentence
    let relevance : ℚ :=
      countContaining queryTerms lowerSentence / (queryTerms.length : ℚ)
    if relevance > 3 / 10 then
      match indexOfFrom content sentence currentPos with
      | some start =>
        ⟨start, start + sentence.length, trimStr sentence⟩ ::
          semanticHighAux queryTerms content rest (start + sentence.length)
      | none => semanticHighAux queryTerms content rest currentPos
    else semanticHighAux queryTerms content rest currentPos

/-- `generateSemanticHighlights(query, content)`. -/
def generateSemanticHighlights (query content : Str) : List TextHighlight :=
  let sentences := jsSplit sentencePunct content
  let queryTerms := jsSplitWS (lowerStr query)
  semanticHighAux queryTerms content sentences 0

/-- `extractMatchedContent`'s window starts: `for (i = 0; i <
content.length - 200; i += 50)` (no iterations when the content is at most
200 characters long). -/
def snippetStarts (len : Nat) : List Nat :=
  if 200 < len then (List.range ((len - 200 + 49) / 50)).map (· * 50) else []

/-- `extractMatchedContent`'s per-window score: how many query terms the
200-character window at `i` contains. -/
def snippetScore (queryTerms : List Str) (lowerContent : Str) (i : Nat) : Nat :=
  (queryTerms.filter (fun t => strContains ((lowerContent.drop i).take 200) t)).length

/-- `extractMatchedContent(query, content)` (analytics-types.ts 424-448):
slide a 200-character window at stride 50, keep the first window with the
strictly highest term coverage, return that window. -/
def extractMatchedContent (query content : Str) : Str :=
  let queryTerms := jsSplitWS (lowerStr query)
  let lowerContent := lowerStr content
  let best := (snippetStarts content.length).foldl
    (fun (b : Nat × Nat) i =>
      if snippetScore queryTerms lowerContent i > b.1
      then (snippetScore queryTerms lowerContent i, i) else b)
    (0, 0)
  (content.drop best.2).take 200

/-! ## SearchEngine retrieval (analytics-types.ts 146-305, 469-487) -/

/-- `performTextSearch`'s tokenizer:
`query.queryText.split(/\s+/).filter((term) => term.length > 0)`. -/
def searchTermsOf (q : SearchQuery) : List Str :=
  (jsSplitWS q.queryText).filter (fun t => decide (0 < t.length))

/-- One conjunct of the generated SQL `WHERE` clause:
`(name LIKE %term% OR content LIKE %term% OR signature LIKE %term%)`
(SQLite `LIKE` is case-insensitive). -/
def rowMatchesTerm (r : CodeRow) (term : Str) : Bool :=
  strContains (lowerStr r.name) (lowerStr term)
    || strContains (lowerStr r.content) (lowerStr term)
    || strContains (lowerStr r.signature) (lowerStr term)

/-- The full `WHERE` clause over the search terms: the per-term conjuncts are
chained with `AND`. -/
def rowMatchesAll (r : CodeRow) (terms : List Str) : Bool :=
  terms.all (rowMatchesTerm r)

/-- The `SearchFilters` predicate of the claim wording ("contains at least
one of the tokens"); stated from the spec sentence, for comparison with
`rowMatchesAll`, which is what the generated SQL enforces. -/
def rowMatchesAny (r : CodeRow) (terms : List Str) : Bool :=
  terms.any (rowMatchesTerm r)

/-- The optional `file_path LIKE %.ext OR …` clause added when
`query.filters?.fileTypes` is set. -/
def fileTypeOK (filters : Option SearchFilters) (r : CodeRow) : Bool :=
  match filters with
  | none => true
  | some f =>
    match f.fileTypes with
    | none => true
    | some exts =>
      exts.any (fun e => strEndsWith (lowerStr r.file_path) (lowerStr ('.' :: e)))

/-- `ORDER BY name`: stable insertion of a row into a name-sorted list. -/
def insertByName (r : CodeRow) : List CodeRow → List CodeRow
  | [] => [r]
  | x :: xs => if strLt x.name r.name then x :: insertByName r xs else r :: x :: xs

/-- `ORDER BY name` (ties keep row order, i.e. rowid order). -/
def sortByName (l : List CodeRow) : List CodeRow :=
  l.foldr insertByName []

/-- The rows the text-search SQL returns: `WHERE` clause, `ORDER BY name`,
`LIMIT this.maxResults * 2` (analytics-types.ts 188-211). -/
def textCandidateRows (store : List CodeRow) (cfg : SearchEngineConfig)
    (q : SearchQuery) : List CodeRow :=
  (sortByName (store.filter
      (fun r => rowMatchesAll r (searchTermsOf q) && fileTypeOK q.filters r))).take
    (2 * effMaxResults cfg)

/-- `performTextSearch(query)` (analytics-types.ts 179-234). -/
def performTextSearch (store : List CodeRow) (cfg : SearchEngineConfig)
    (q : SearchQuery) : List SearchResult :=
  if (searchTermsOf q).isEmpty then []
  else
    (textCandidateRows store cfg q).filterMap (fun row =>
      let relevanceScore := calculateTextRelevance q.queryText row
      if effMinScore cfg ≤ relevanceScore then
        some { elementId := row.id
             , relevanceScore := relevanceScore
             , matchType := MatchType.exact
             , matchedContent := extractMatchedContent q.queryText row.content
             , relationships := relationshipsOf store row.id
             , highlights := generateHighlights q.queryText row.content
             , rank := 0 }
      else none)

/-- `performSemanticSearch(query)` (analytics-types.ts 239-273).  `oracle =
none` models a thrown embedding-provider call (`getQueryEmbedding` /
`searchVectorEmbeddings`): the `catch` block falls back to
`performTextSearch`.  `oracle = some hits` models a successful provider
answer. -/
def performSemanticSearch (store : List CodeRow) (cfg : SearchEngineConfig)
    (oracle : Option (List VectorHit)) (q : SearchQuery) : List SearchResult :=
  match oracle with
  | none => performTextSearch store cfg q
  | some hits =>
    hits.filterMap (fun hit =>
      if effMinScore cfg ≤ hit.score then
        some { elementId := hit.id
             , relevanceScore := hit.score
             , matchType := MatchType.semantic
             , matchedContent := hit.content
             , relationships := relationshipsOf store hit.id
             , highlights := generateSemanticHighlights q.queryText hit.content
             , rank := 0 }
      else none)

/-- `combinedResults.set(result.elementId, result)` for a text result: a JS
`Map` keeps the original insertion position on overwrite. -/
def mapSet (m : List SearchResult) (r : SearchResult) : List SearchResult :=
  if m.any (fun x => decide (x.elementId = r.elementId)) then
    m.map (fun x => if x.elementId = r.elementId then r else x)
  else m ++ [r]

/-- The semantic half of `performHybridSearch`'s merge (analytics-types.ts
293-302): on a key collision the existing entry gets
`relevanceScore = max(existing.relevanceScore, result.relevanceScore * 1.2)`
and `matchType = "hybrid"`; otherwise the semantic result is appended. -/
def mergeSemantic (m : List SearchResult) (r : SearchResult) : List SearchResult :=
  if m.any (fun x => decide (x.elementId = r.elementId)) then
    m.map (fun x =>
      if x.elementId = r.elementId then
        { x with
          relevanceScore := max x.relevanceScore (r.relevanceScore * (12 / 10))
          matchType := MatchType.hybrid }
      else x)
  else m ++ [r]

/-- `performHybridSearch(query)` (analytics-types.ts 278-305): text results
first, then semantic results merged in, in `Map` insertion order. -/
def performHybridSearch (store : List CodeRow) (cfg : SearchEngineConfig)
    (oracle : Option (List VectorHit)) (q : SearchQuery) : List SearchResult :=
  (performSemanticSearch store cfg oracle q).foldl mergeSemantic
    ((performTextSearch store cfg q).foldl mapSet [])

/-- `applyFilters(results, filters)` (analytics-types.ts 469-487): the body
of the `filter` callback skips both the date-range and the element-type
checks ("For now, skip this filter") and returns `true` for every result. -/
def applyFilters (results : List SearchResult) (filters : Option SearchFilters) :
    List SearchResult :=
  match filters with
  | none => results
  | some _ => results.filter (fun _ => true)

/-- `results.sort((a, b) => b.relevanceScore - a.relevanceScore)`: stable
insertion of one result into a score-descending list. -/
def insertByScoreDesc (r : SearchResult) : List SearchResult → List SearchResult
  | [] => [r]
  | x :: xs =>
    if x.relevanceScore > r.relevanceScore then x :: insertByScoreDesc r xs
    else r :: x :: xs

/-- `results.sort((a, b) => b.relevanceScore - a.relevanceScore)` (stable,
as ES2019 sort). -/
def sortByScoreDesc (l : List SearchResult) : List SearchResult :=
  l.foldr insertByScoreDesc []

/-- `search(query)` (analytics-types.ts 146-174): dispatch on the strategy,
then `applyFilters`, sort by score descending, truncate to `maxResults`.
The audit insert (`storeSearchQuery`) only writes the returned data and is
not modelled. -/
def search (store : List CodeRow) (cfg : SearchEngineConfig)
    (oracle : Option (List VectorHit)) (q : SearchQuery) : List SearchResult :=
  let results :=
    match q.searchType with
    | SearchType.text => performTextSearch store cfg q
    | SearchType.semantic => performSemanticSearch store cfg oracle q
    | SearchType.hybrid => performHybridSearch store cfg oracle q
  (sortByScoreDesc (applyFilters results q.filters)).take (effMaxResults cfg)

/-! ## CodeIndexer / IndexingService (code-indexer.ts, src/unnamed/part_003)

The SQLite store is a `List CodeRow` in row order.  Write statements
(`DELETE`, each `INSERT` of the per-element loop) are numbered in execution
order within one `indexFile` call — the `DELETE` is operation `0`, the `k`-th
`INSERT` is operation `k` — and a parameter `fails : Nat → Bool` says which
write statement (if any) throws, modelling a `StorageFailure`.  The file
system is an association list `path ↦ content`; a missing path makes
`fs.readFileSync` throw.  Extraction (`extractCodeElements` and its
per-language regex helpers) and the content hash (`createHash("sha256")`)
are parameters: `indexFile` only calls them as pure functions of
`(filePath, content, extension)` resp. the file content, and no claim
depends on their internals. -/

/-- What `extractCodeElements` returns per element:
`Omit<CodeIndex, "filePath" | "hash" | "lastModified" | "indexedAt">`. -/
structure ElemDraft where
  id : Str
  type : Str
  name : Str
  lineNumber : Nat
  signature : Str
  content : Str
  language : Str
  dependencies : List Str
  tags : List Str
deriving DecidableEq

/-- The file system seen by `fs.readFileSync`. -/
abbrev FileSys := List (Str × Str)

/-- `fs.readFileSync(path)` as a lookup; `none` means the read throws. -/
def lookupFS (fs : FileSys) (p : Str) : Option Str :=
  match fs.find? (fun e => decide (e.1 = p)) with
  | some e => some e.2
  | none => none

/-- `path.basename`: the part after the last `/`. -/
def basenameOf (p : Str) : Str := (p.reverse.takeWhile (fun c => !(c == '/'))).reverse

/-- `path.extname`: from the last `.` of the basename to the end; empty when
the basename has no `.` or only a leading one. -/
def extnameOf (p : Str) : Str :=
  let b := basenameOf p
  let revAfter := b.reverse.takeWhile (fun c => !(c == '.'))
  if revAfter.length = b.length then []
  else if revAfter.length + 1 = b.length then []
  else '.' :: revAfter.reverse

/-- `CodeIndexer.supportedExtensions`. -/
def supportedExtensions : List Str :=
  [str ".ts", str ".tsx", str ".js", str ".jsx", str ".py", str ".java",
   str ".cpp", str ".c", str ".h", str ".hpp", str ".go", str ".rs",
   str ".php", str ".rb", str ".swift", str ".kt"]

/-- The guard of `CodeIndexer.indexFile` lines 49-53:
`supportedExtensions.has(path.extname(filePath).toLowerCase())`. -/
def extSupportedOf (p : Str) : Bool :=
  supportedExtensions.contains (lowerStr (extnameOf p))

/-- `getExistingIndex(filePath)`: `SELECT hash FROM code_index WHERE
file_path = ? LIMIT 1` — the first matching row in row order. -/
def getExistingIndex (store : List CodeRow) (p : Str) : Option CodeRow :=
  store.find? (fun r => decide (r.file_path = p))

/-- `storeCodeElement`'s row (code-indexer.ts 115-139): the draft plus
`filePath` and `hash` (the wall-clock columns are omitted). -/
def draftToRow (filePath hash : Str) (d : ElemDraft) : CodeRow :=
  { id := d.id, type := d.type, name := d.name, file_path := filePath,
    line_number := d.lineNumber, signature := d.signature,
    content := d.content, language := d.language,
    dependencies := d.dependencies, tags := d.tags, hash := hash }

/-- The rows one `indexFile` call inserts for `p` with content `content`. -/
def rowsOf (extract : Str → Str → Str → List ElemDraft) (hashFn : Str → Str)
    (p content : Str) : List CodeRow :=
  (extract p content (lowerStr (extnameOf p))).map (draftToRow p (hashFn content))

/-- The message of a failed store write (standing for whatever the SQLite
driver throws). -/
def writeErrMsg : Str := str "SQLITE_ERROR: database write failed"

/-- The message of `fs.readFileSync` on a missing file. -/
def readErrMsg (p : Str) : Str :=
  str "ENOENT: no such file or directory, open " ++ p

/-- The `for (const element of elements) { await this.storeCodeElement(…) }`
loop: insert the rows one at a time, counting, stopping with an error at the
first failing write statement.  Rows inserted before the failure stay in the
store. -/
def runInserts (fails : Nat → Bool) :
    List CodeRow → List CodeRow → Nat → Nat → List CodeRow × Except Str Nat
  | store, [], _, count => (store, Except.ok count)
  | store, r :: rest, opIdx, count =>
    if fails opIdx then (store, Except.error writeErrMsg)
    else runInserts fails (store ++ [r]) rest (opIdx + 1) (count + 1)

/-- `removeFileIndex` (the `DELETE`, write statement `0`) followed by the
insert loop (write statements `1, 2, …`). -/
def replaceFileRows (fails : Nat → Bool) (store : List CodeRow) (filePath : Str)
    (rows : List CodeRow) : List CodeRow × Except Str Nat :=
  if fails 0 then (store, Except.error writeErrMsg)
  else runInserts fails
    (store.filter (fun r => decide (r.file_path ≠ filePath))) rows 1 0

/-- `CodeIndexer.indexFile(filePath)` (code-indexer.ts 48-86): unsupported
extension → `0` without touching the store; missing file → the read throws;
unchanged hash → `0` without touching the store; otherwise delete the path's
rows and insert the freshly extracted ones. -/
def codeIndexerIndexFile (fails : Nat → Bool) (fs : FileSys)
    (extract : Str → Str → Str → List ElemDraft) (hashFn : Str → Str)
    (store : List CodeRow) (filePath : Str) : List CodeRow × Except Str Nat :=
  if extSupportedOf filePath then
    match lookupFS fs filePath with
    | none => (store, Except.error (readErrMsg filePath))
    | some content =>
      let hash := hashFn content
      match getExistingIndex store filePath with
      | some row =>
        if row.hash = hash then (store, Except.ok 0)
        else replaceFileRows fails store filePath (rowsOf extract hashFn filePath content)
      | none =>
        replaceFileRows fails store filePath (rowsOf extract hashFn filePath content)
  else (store, Except.ok 0)

/-- `IndexingResult` (indexing-types), without the wall-clock `duration`. -/
structure IndexingResult where
  success : Bool
  elementsIndexed : Nat
  errors : List Str
deriving DecidableEq

/-- `IndexingService.indexFile(filePath)` (src/unnamed/part_003 116-136):
wrap `CodeIndexer.indexFile` in `try`/`catch`, reporting either
`{success: true, elementsIndexed: n, errors: []}` or
`{success: false, elementsIndexed: 0, errors: [message]}`. -/
def serviceIndexFile (fails : Nat → Bool) (fs : FileSys)
    (extract : Str → Str → Str → List ElemDraft) (hashFn : Str → Str)
    (store : List CodeRow) (filePath : Str) : List CodeRow × IndexingResult :=
  match codeIndexerIndexFile fails fs extract hashFn store filePath with
  | (s, Except.ok n) => (s, ⟨true, n, []⟩)
  | (s, Except.error e) => (s, ⟨false, 0, [e]⟩)

/-- The failure schedule under which every write statement succeeds. -/
def noFail : Nat → Bool := fun _ => false

/-- `getExistingIndex` + hash comparison, as a decidable test: the change
detector sees a changed (or absent) stored hash for `p`. -/
def hashChanged (store : List CodeRow) (p h : Str) : Bool :=
  match getExistingIndex store p with
  | some r => !(r.hash == h)
  | none => true

/-! ## Concrete fixtures used by the claim theorems and witnesses -/

/-- A configuration with both optional knobs left unset. -/
def cfgDefault : SearchEngineConfig :=
  { workspacePath := str "w", dataDirectory := str "d",
    maxResults := none, minScore := none }

/-- An indexed element named `add`. -/
def rowAdd : CodeRow :=
  { id := str "e1", type := str "function", name := str "add",
    file_path := str "a.ts", line_number := 1, signature := [],
    content := str "x", language := str "typescript",
    dependencies := [], tags := [], hash := str "h1" }

/-- An indexed element named `addx` (partial name match only). -/
def rowAddx : CodeRow :=
  { id := str "e2", type := str "function", name := str "addx",
    file_path := str "a.ts", line_number := 2, signature := [],
    content := [], language := str "typescript",
    dependencies := [], tags := [], hash := str "h1" }

/-- The hybrid query `add`. -/
def qAddHybrid : SearchQuery :=
  { id := str "q1", queryText := str "add", searchType := SearchType.hybrid,
    filters := none }

/-- The text query `add`. -/
def qAddText : SearchQuery :=
  { id := str "q2", queryText := str "add", searchType := SearchType.text,
    filters := none }

/-- A semantic hit for `e1` with provider similarity `0.9`. -/
def hitE1 : VectorHit := { id := str "e1", score := 9 / 10, content := str "sem" }

/-! ## C1 -/

unseal Rat.mul Rat.inv Rat.add in
/-- Claim C1: the claim states that for an element in both the lexical and
the semantic result set with scores `L` and `S`, the merged hybrid score is
`min(1, max(L, 1.2·S))`, so it never exceeds `1`.  The code
(`performHybridSearch`, analytics-types.ts 297) computes
`Math.max(existing.relevanceScore, result.relevanceScore * 1.2)` with no
clamp: with `L = 1` and `S = 0.9` the returned score is `27/25 = 1.08 > 1`,
while the claimed formula gives `min(1, 1.08) = 1`.  This also contradicts
the repository's own data model (`relevanceScore`: "Computed relevance
score (0-1)", specs/001-indexing-memory-features/data-model.md). -/
theorem hybrid_merge_unclamped_eval :
    (search [rowAdd] cfgDefault (some [hitE1]) qAddHybrid).map
        (fun r => (r.elementId, r.relevanceScore, r.matchType))
      = [(str "e1", 27 / 25, MatchType.hybrid)]
    ∧ ¬ ((27 : ℚ) / 25 ≤ 1)
    ∧ min 1 (max 1 ((9 : ℚ) / 10 * (12 / 10))) = 1 := by
  refine ⟨by decide, by norm_num, by norm_num⟩

/-! ## C2 -/

unseal Rat.mul Rat.inv Rat.add in
/-- Claim C2: the claim states that every result list is sorted by
`relevanceScore` descending AND that each result's `rank` equals its
zero-based position.  The sort does happen (`search`, analytics-types.ts
167), but `rank` is set to `0` with the comment "Will be set after sorting"
and never updated: on a store with two matching elements (scores `1` and
`4/5`) the returned ranks are `[0, 0]`, not `[0, 1]`. -/
theorem search_rank_all_zero_eval :
    (search [rowAdd, rowAddx] cfgDefault none qAddText).map
        (fun r => (r.elementId, r.relevanceScore, r.rank))
      = [(str "e1", 1, 0), (str "e2", 4 / 5, 0)]
    ∧ (search [rowAdd, rowAddx] cfgDefault none qAddText).map
        (fun r => r.rank) ≠ [0, 1] := by
  refine ⟨by decide, by decide⟩

/-! ## C10 -/

/-- An indexed element whose content `aaa` contains two overlapping
occurrences of the query term `aa`. -/
def rowAa : CodeRow :=
  { id := str "e3", type := str "function", name := str "aa",
    file_path := str "a.ts", line_number := 1, signature := [],
    content := str "aaa", language := str "typescript",
    dependencies := [], tags := [], hash := str "h1" }

/-- The text query `aa`. -/
def qAaText : SearchQuery :=
  { id := str "q4", queryText := str "aa", searchType := SearchType.text,
    filters := none }

unseal Rat.mul Rat.inv Rat.add in
/-- Claim C10: the claim states that every highlight span `(start, end,
text)` attached to a lexical result satisfies `text = content[start..end)`,
including merged spans.  Searching `aa` over content `aaa` produces the
spans `(0,2)` and `(1,3)`; `mergeHighlights` (analytics-types.ts 409-410)
updates `current.end` to `3` BEFORE appending
`next.text.substring(current.end - next.start)`, so the appended part is
empty and the merged span is `(0, 3, "aa")` — but `content[0..3) = "aaa"`. -/
theorem merged_highlight_text_eval :
    (search [rowAa] cfgDefault none qAaText).map (fun r => r.highlights)
      = [[⟨0, 3, str "aa"⟩]]
    ∧ (rowAa.content.drop 0).take (3 - 0) = str "aaa"
    ∧ str "aa" ≠ str "aaa" := by
  refine ⟨by decide, by decide, by decide⟩

/-! ## C5 -/

/-- An indexed element matching the token `foo` but not the token `bar`. -/
def rowFoo : CodeRow :=
  { id := str "f1", type := str "function", name := str "foo",
    file_path := str "a.ts", line_number := 1, signature := [],
    content := [], language := str "typescript",
    dependencies := [], tags := [], hash := str "h1" }

/-- The two-token text query `foo bar`. -/
def qFooBar : SearchQuery :=
  { id := str "q5", queryText := str "foo bar", searchType := SearchType.text,
    filters := none }

unseal Rat.mul Rat.inv Rat.add in
/-- Claim C5: the claim states that an element is a text-search candidate iff
its name/content/signature contains AT LEAST ONE query token, and that
matching one token but none of the others still makes it a candidate.  The
generated SQL (analytics-types.ts 196-199) chains one
`AND (name LIKE … OR content LIKE … OR signature LIKE …)` conjunct per
token: the element `foo` matches the token `foo` of the query `foo bar`
(so `rowMatchesAny` holds) yet is excluded from the candidate rows, and the
search returns nothing. -/
theorem any_token_not_candidate_eval :
    rowMatchesAny rowFoo (searchTermsOf qFooBar) = true
    ∧ textCandidateRows [rowFoo] cfgDefault qFooBar = []
    ∧ search [rowFoo] cfgDefault none qFooBar = [] := by
  refine ⟨by decide, by decide, by decide⟩

/-! ## C8 -/

/-- An indexed element of type `class` named `add`. -/
def rowClassAdd : CodeRow :=
  { id := str "e1", type := str "class", name := str "add",
    file_path := str "a.ts", line_number := 1, signature := [],
    content := str "x", language := str "typescript",
    dependencies := [], tags := [], hash := str "h1" }

/-- The text query `add` with an element-type allow-list of `function`. -/
def qElemTypeFilter : SearchQuery :=
  { id := str "q6", queryText := str "add", searchType := SearchType.text,
    filters := some { fileTypes := none, dateRange := none, authors := none,
                      elementTypes := some [str "function"] } }

unseal Rat.mul Rat.inv Rat.add in
/-- Claim C8: the claim states that when the query's filters carry an
element-type allow-list, every returned result refers to an element whose
type is in that list.  `applyFilters` (analytics-types.ts 480-483) reads
`filters.elementTypes` but its body is "For now, skip this filter": with an
allow-list of `function`, the `class` element `e1` is still returned. -/
theorem element_type_filter_ignored_eval :
    (search [rowClassAdd] cfgDefault none qElemTypeFilter).map
        (fun r => r.elementId) = [str "e1"]
    ∧ rowClassAdd.type = str "class"
    ∧ ¬ str "class" ∈ [str "function"] := by
  refine ⟨by decide, by decide, by decide⟩

/-! ## C3 and C4 fixtures -/

/-- A first extracted element draft. -/
def draftA : ElemDraft :=
  { id := str "n1", type := str "function", name := str "a",
    lineNumber := 1, signature := [], content := [],
    language := str "typescript", dependencies := [], tags := [] }

/-- A second extracted element draft. -/
def draftB : ElemDraft :=
  { id := str "n2", type := str "function", name := str "b",
    lineNumber := 2, signature := [], content := [],
    language := str "typescript", dependencies := [], tags := [] }

/-- An extractor producing the two drafts for any input. -/
def extractAB : Str → Str → Str → List ElemDraft := fun _ _ _ => [draftA, draftB]

/-- A content hash (injective on the contents used here). -/
def hashId : Str → Str := fun content => content

/-- The stored row of `a.ts` before re-indexing (hash `OLD`). -/
def rowOld : CodeRow :=
  { id := str "o1", type := str "function", name := str "old",
    file_path := str "a.ts", line_number := 1, signature := [],
    content := [], language := str "typescript",
    dependencies := [], tags := [], hash := str "OLD" }

/-- A stored row for the path `gone.ts` whose file no longer exists. -/
def rowGone : CodeRow :=
  { id := str "g1", type := str "function", name := str "gone",
    file_path := str "gone.ts", line_number := 1, signature := [],
    content := [], language := str "typescript",
    dependencies := [], tags := [], hash := str "OLD" }

/-- The failure schedule under which the second `INSERT` (write statement 2)
throws. -/
def failSecondInsert : Nat → Bool := fun n => n == 2

/-! ## C3 -/

/-- Claim C3: the claim states that replacing a file's element set is atomic
— after `indexFile`, even when a storage write fails partway, the store
holds either exactly the old set or exactly the complete new set for that
path.  `CodeIndexer.indexFile` (code-indexer.ts 66-83) runs an unguarded
`DELETE` followed by one `INSERT` per element with no transaction: when the
second of two inserts throws, the store for `a.ts` holds exactly the first
new row — the old set (`[rowOld]`) is gone and the new set (two rows) is
incomplete. -/
theorem replace_partial_state_eval :
    serviceIndexFile failSecondInsert [(str "a.ts", str "NEW")] extractAB hashId
        [rowOld] (str "a.ts")
      = ([draftToRow (str "a.ts") (str "NEW") draftA], ⟨false, 0, [writeErrMsg]⟩)
    ∧ ¬ [draftToRow (str "a.ts") (str "NEW") draftA] = [rowOld]
    ∧ ¬ [draftToRow (str "a.ts") (str "NEW") draftA]
        = rowsOf extractAB hashId (str "a.ts") (str "NEW") := by
  refine ⟨by decide, by decide, by decide⟩

/-! ## C4 -/

/-- Claim C4: the claim states that `indexFile` on a path whose file no
longer exists deletes the stored elements for that path and reports success
with an empty error list.  In the code (code-indexer.ts 55,
src/unnamed/part_003 128-135) `fs.readFileSync` throws before any store
access; the service catches it and reports `success = false` with the read
error, and the stored row for `gone.ts` survives untouched. -/
theorem missing_file_error_eval :
    serviceIndexFile noFail [] extractAB hashId [rowGone] (str "gone.ts")
      = ([rowGone], ⟨false, 0, [readErrMsg (str "gone.ts")]⟩)
    ∧ (serviceIndexFile noFail [] extractAB hashId [rowGone]
        (str "gone.ts")).2.success ≠ true
    ∧ ¬ ([rowGone].filter (fun r => decide (r.file_path = str "gone.ts"))) = [] := by
  refine ⟨by decide, by decide, by decide⟩

/-! ## C6 -/

/-- Claim C6: when every embedding-provider call fails (the oracle is
`none`, modelling a thrown `getQueryEmbedding` / `searchVectorEmbeddings`),
a semantic-strategy `search` returns exactly the text-strategy result list
for the same query: the `catch` block of `performSemanticSearch`
(analytics-types.ts 268-272) substitutes `performTextSearch`, and the
shared filter/sort/truncate pipeline applies identically.  No error reaches
the caller (`search` is total). -/
theorem semantic_failure_falls_back (store : List CodeRow)
    (cfg : SearchEngineConfig) (q : SearchQuery)
    (h : q.searchType = SearchType.semantic) :
    search store cfg none q
      = search store cfg none { q with searchType := SearchType.text } := by
  cases q with
  | mk id queryText searchType filters =>
    simp only [SearchQuery.searchType] at h
    subst h
    rfl

/-- Witness for C6 at a concrete store, configuration and semantic query. -/
theorem semantic_failure_falls_back_witness :
    search [rowAdd] cfgDefault none
        { id := str "q7", queryText := str "add",
          searchType := SearchType.semantic, filters := none }
      = search [rowAdd] cfgDefault none
        { id := str "q7", queryText := str "add",
          searchType := SearchType.text, filters := none } :=
  semantic_failure_falls_back [rowAdd] cfgDefault
    { id := str "q7", queryText := str "add",
      searchType := SearchType.semantic, filters := none } rfl

/-- Claim C8, amended: the element-type allow-list is accepted but never
enforced — replacing the `elementTypes` field of a query's filters by
anything else (including removing it) never changes the result list, under
any strategy, store, configuration and oracle. -/
theorem search_ignores_element_types (store : List CodeRow)
    (cfg : SearchEngineConfig) (oracle : Option (List VectorHit))
    (q : SearchQuery) (f : SearchFilters) (ets ets' : Option (List Str)) :
    search store cfg oracle { q with filters := some { f with elementTypes := ets } }
      = search store cfg oracle
          { q with filters := some { f with elementTypes := ets' } } := by
  cases q with
  | mk id queryText searchType filters =>
    cases f with
    | mk fileTypes dateRange authors elementTypes =>
      cases searchType <;> rfl

/-! ## C4, amended theorem -/

/-- Claim C4, amended: calling `indexFile` on a supported-extension path
whose file no longer exists performs no store writes — every stored element
for that path (and every other row) is preserved — and the result reports
`success = false` with the single read-error message, under every failure
schedule, extractor and hash function. -/
theorem missing_file_preserves_store (fails : Nat → Bool) (fs : FileSys)
    (extract : Str → Str → Str → List ElemDraft) (hashFn : Str → Str)
    (store : List CodeRow) (p : Str)
    (hmiss : lookupFS fs p = none) (hext : extSupportedOf p = true) :
    serviceIndexFile fails fs extract hashFn store p
      = (store, ⟨false, 0, [readErrMsg p]⟩) := by
  simp only [serviceIndexFile, codeIndexerIndexFile, hext, if_true, hmiss]

/-- Witness for C4's amended theorem: the `gone.ts` fixture. -/
theorem missing_file_preserves_store_witness :
    serviceIndexFile noFail [] extractAB hashId [rowGone] (str "gone.ts")
      = ([rowGone], ⟨false, 0, [readErrMsg (str "gone.ts")]⟩) :=
  missing_file_preserves_store noFail [] extractAB hashId [rowGone]
    (str "gone.ts") (by decide) (by decide)

/-! ## C3, amended theorem -/

/-- Under the all-writes-succeed schedule, the insert loop appends its rows
in order and reports the running count. -/
theorem runInserts_noFail :
    ∀ (rows store : List CodeRow) (i c : Nat),
      runInserts noFail store rows i c = (store ++ rows, Except.ok (c + rows.length)) := by
  intro rows
  induction rows with
  | nil => intro store i c; simp [runInserts]
  | cons r rest ih =>
    intro store i c
    have step : runInserts noFail store (r :: rest) i c
        = runInserts noFail (store ++ [r]) rest (i + 1) (c + 1) := rfl
    rw [step, ih]
    simp only [List.append_assoc, List.singleton_append, List.length_cons]
    have harith : c + 1 + rest.length = c + (rest.length + 1) := by omega
    rw [harith]

/-- Claim C3, amended: replacement is only atomic when every storage write
succeeds.  In that case `indexFile` on a changed (or previously unindexed)
file leaves the store holding exactly the other paths' rows (in order)
followed by the complete new element set for `p`, and reports success with
the inserted count; the counterexample shows that when a write fails partway
the store is left with a partial subset of the new set and the old set
already deleted. -/
theorem replace_success_atomic (fs : FileSys)
    (extract : Str → Str → Str → List ElemDraft) (hashFn : Str → Str)
    (store : List CodeRow) (p content : Str)
    (hc : lookupFS fs p = some content) (hext : extSupportedOf p = true)
    (hch : hashChanged store p (hashFn content) = true) :
    serviceIndexFile noFail fs extract hashFn store p
      = (store.filter (fun r => decide (r.file_path ≠ p))
           ++ rowsOf extract hashFn p content,
         ⟨true, (rowsOf extract hashFn p content).length, []⟩) := by
  cases hfind : getExistingIndex store p with
  | none =>
    simp only [serviceIndexFile, codeIndexerIndexFile, hext, if_true, hc, hfind,
      replaceFileRows, noFail, Bool.false_eq_true, if_false, runInserts_noFail,
      Nat.zero_add]
  | some row =>
    have hne : ¬ row.hash = hashFn content := by
      simp only [hashChanged, hfind, Bool.not_eq_true'] at hch
      simpa using hch
    simp only [serviceIndexFile, codeIndexerIndexFile, hext, if_true, hc, hfind,
      hne, if_false, replaceFileRows, noFail, Bool.false_eq_true,
      runInserts_noFail, Nat.zero_add]

/-- Witness for C3's amended theorem: re-indexing `a.ts` (old hash `OLD`,
new content `NEW`, two extracted elements) with no write failures. -/
theorem replace_success_atomic_witness :
    serviceIndexFile noFail [(str "a.ts", str "NEW")] extractAB hashId
        [rowOld] (str "a.ts")
      = ([rowOld].filter (fun r => decide (r.file_path ≠ str "a.ts"))
           ++ rowsOf extractAB hashId (str "a.ts") (str "NEW"),
         ⟨true, (rowsOf extractAB hashId (str "a.ts") (str "NEW")).length, []⟩) :=
  replace_success_atomic [(str "a.ts", str "NEW")] extractAB hashId [rowOld]
    (str "a.ts") (str "NEW") (by decide) (by decide) (by decide)

/-! ## C7 -/

/-- Rows filtered to other paths never satisfy the path lookup. -/
theorem find?_filter_path_none (store : List CodeRow) (p : Str) :
    (store.filter (fun r => decide (r.file_path ≠ p))).find?
      (fun r => decide (r.file_path = p)) = none := by
  rw [List.find?_eq_none]
  intro x hx
  have hne := (List.mem_filter.mp hx).2
  simp only [decide_eq_true_eq] at hne ⊢
  exact hne

/-- `CodeIndexer.indexFile` under the all-writes-succeed schedule, on a
present file whose stored hash is absent or stale: the path's rows are
replaced by the fresh extraction. -/
theorem codeIndexer_replace_noFail (fs : FileSys)
    (extract : Str → Str → Str → List ElemDraft) (hashFn : Str → Str)
    (store : List CodeRow) (p content : Str)
    (hc : lookupFS fs p = some content) (hext : extSupportedOf p = true)
    (hch : ∀ row, getExistingIndex store p = some row → ¬ row.hash = hashFn content) :
    codeIndexerIndexFile noFail fs extract hashFn store p
      = (store.filter (fun r => decide (r.file_path ≠ p))
           ++ rowsOf extract hashFn p content,
         Except.ok (rowsOf extract hashFn p content).length) := by
  cases hfind : getExistingIndex store p with
  | none =>
    simp only [codeIndexerIndexFile, hext, if_true, hc, hfind,
      replaceFileRows, noFail, Bool.false_eq_true, if_false, runInserts_noFail,
      Nat.zero_add]
  | some row =>
    simp only [codeIndexerIndexFile, hext, if_true, hc, hfind,
      hch row hfind, if_false, replaceFileRows, noFail, Bool.false_eq_true,
      runInserts_noFail, Nat.zero_add]

/-- On a store whose rows for `p` are exactly one fresh extraction of the
current content (preceded by rows of other paths), `CodeIndexer.indexFile`
is a no-op returning `0`: either the first row for `p` carries the current
hash (skip branch), or there are no rows for `p` and the extraction is
empty, so the delete removes nothing and the insert loop inserts nothing. -/
theorem codeIndexer_skip_on_fresh (fs : FileSys)
    (extract : Str → Str → Str → List ElemDraft) (hashFn : Str → Str)
    (base : List CodeRow) (p content : Str)
    (hc : lookupFS fs p = some content) (hext : extSupportedOf p = true)
    (hbase : ∀ r ∈ base, ¬ r.file_path = p) :
    codeIndexerIndexFile noFail fs extract hashFn
        (base ++ rowsOf extract hashFn p content) p
      = (base ++ rowsOf extract hashFn p content, Except.ok 0) := by
  have hfindbase : base.find? (fun r => decide (r.file_path = p)) = none := by
    rw [List.find?_eq_none]
    intro x hx
    simpa using hbase x hx
  cases hrows : extract p content (lowerStr (extnameOf p)) with
  | nil =>
    have hr : rowsOf extract hashFn p content = [] := by
      simp [rowsOf, hrows]
    have hfiltbase : base.filter (fun r => decide (r.file_path ≠ p)) = base := by
      rw [List.filter_eq_self]
      intro a ha
      simpa using hbase a ha
    rw [hr, List.append_nil]
    simp only [codeIndexerIndexFile, hext, if_true, hc, getExistingIndex,
      hfindbase, replaceFileRows, noFail, Bool.false_eq_true, if_false, hr,
      runInserts, hfiltbase]
  | cons d ds =>
    have hfind : getExistingIndex (base ++ rowsOf extract hashFn p content) p
        = some (draftToRow p (hashFn content) d) := by
      rw [getExistingIndex, List.find?_append, hfindbase, Option.none_or]
      simp [rowsOf, hrows, List.find?, draftToRow]
    simp only [codeIndexerIndexFile, hext, if_true, hc, hfind, draftToRow,
      if_pos rfl]

/-- Claim C7: when `indexFile(p)` is called twice on a present file whose
content does not change between the calls (same file system, extractor and
hash function; all store writes succeed), the second call returns
`elementsIndexed = 0` with `success = true` and no errors, and leaves every
store row exactly as the first call left it — no row for `p` is deleted,
inserted or modified. -/
theorem indexFile_second_call_noop (fs : FileSys)
    (extract : Str → Str → Str → List ElemDraft) (hashFn : Str → Str)
    (store : List CodeRow) (p : Str)
    (hsome : (lookupFS fs p).isSome = true) :
    serviceIndexFile noFail fs extract hashFn
        (serviceIndexFile noFail fs extract hashFn store p).1 p
      = ((serviceIndexFile noFail fs extract hashFn store p).1, ⟨true, 0, []⟩) := by
  obtain ⟨content, hc⟩ := Option.isSome_iff_exists.mp hsome
  by_cases hext : extSupportedOf p = true
  · cases hfind : getExistingIndex store p with
    | some row =>
      by_cases hh : row.hash = hashFn content
      · have h1 : codeIndexerIndexFile noFail fs extract hashFn store p
            = (store, Except.ok 0) := by
          simp only [codeIndexerIndexFile, hext, if_true, hc, hfind, hh, if_pos rfl]
        simp [serviceIndexFile, h1]
      · have h1 := codeIndexer_replace_noFail fs extract hashFn store p content
          hc hext (by intro r hr; rw [hfind] at hr; cases hr; exact hh)
        have hbase : ∀ r ∈ store.filter (fun r => decide (r.file_path ≠ p)),
            ¬ r.file_path = p := by
          intro r hr
          have := (List.mem_filter.mp hr).2
          simpa using this
        have h2 := codeIndexer_skip_on_fresh fs extract hashFn
          (store.filter (fun r => decide (r.file_path ≠ p))) p content hc hext hbase
        simp only [serviceIndexFile, h1, h2]
    | none =>
      have h1 := codeIndexer_replace_noFail fs extract hashFn store p content
        hc hext (by intro r hr; rw [hfind] at hr; cases hr)
      have hbase : ∀ r ∈ store.filter (fun r => decide (r.file_path ≠ p)),
          ¬ r.file_path = p := by
        intro r hr
        have := (List.mem_filter.mp hr).2
        simpa using this
      have h2 := codeIndexer_skip_on_fresh fs extract hashFn
        (store.filter (fun r => decide (r.file_path ≠ p))) p content hc hext hbase
      simp only [serviceIndexFile, h1, h2]
  · have h1 : codeIndexerIndexFile noFail fs extract hashFn store p
        = (store, Except.ok 0) := by
      simp [codeIndexerIndexFile, hext]
    simp [serviceIndexFile, h1]

/-- Witness for C7: re-indexing `a.ts` twice from the same file system. -/
theorem indexFile_second_call_noop_witness :
    serviceIndexFile noFail [(str "a.ts", str "NEW")] extractAB hashId
        ((serviceIndexFile noFail [(str "a.ts", str "NEW")] extractAB hashId
            [rowOld] (str "a.ts")).1) (str "a.ts")
      = ((serviceIndexFile noFail [(str "a.ts", str "NEW")] extractAB hashId
            [rowOld] (str "a.ts")).1, ⟨true, 0, []⟩) :=
  indexFile_second_call_noop [(str "a.ts", str "NEW")] extractAB hashId
    [rowOld] (str "a.ts") (by decide)

/-! ## C9 -/

/-- The engine's effective threshold is at least the configured one
(`0.3` replaces an absent — or falsy-zero — configuration value). -/
theorem getD_le_effMinScore (cfg : SearchEngineConfig) :
    cfg.minScore.getD (3 / 10) ≤ effMinScore cfg := by
  cases hm : cfg.minScore with
  | none => simp [effMinScore, hm]
  | some x =>
    by_cases hx : x = 0
    · subst hx
      simp only [effMinScore, hm, if_pos rfl, Option.getD_some]
      norm_num
    · simp [effMinScore, hm, hx]

/-- Every result `performTextSearch` emits passed the
`relevanceScore >= this.minScore` guard. -/
theorem mem_performTextSearch_score {store : List CodeRow}
    {cfg : SearchEngineConfig} {q : SearchQuery} {r : SearchResult}
    (h : r ∈ performTextSearch store cfg q) :
    effMinScore cfg ≤ r.relevanceScore := by
  unfold performTextSearch at h
  split at h
  · simp at h
  · rw [List.mem_filterMap] at h
    obtain ⟨row, _, hf⟩ := h
    by_cases hge : effMinScore cfg ≤ calculateTextRelevance q.queryText row
    · rw [if_pos hge] at hf
      cases hf
      exact hge
    · rw [if_neg hge] at hf
      cases hf

/-- Every result `performSemanticSearch` emits passed the
`result.score >= this.minScore` guard (or came from the text fallback). -/
theorem mem_performSemanticSearch_score {store : List CodeRow}
    {cfg : SearchEngineConfig} {oracle : Option (List VectorHit)}
    {q : SearchQuery} {r : SearchResult}
    (h : r ∈ performSemanticSearch store cfg oracle q) :
    effMinScore cfg ≤ r.relevanceScore := by
  cases oracle with
  | none => exact mem_performTextSearch_score h
  | some hits =>
    simp only [performSemanticSearch, List.mem_filterMap] at h
    obtain ⟨hit, _, hf⟩ := h
    by_cases hge : effMinScore cfg ≤ hit.score
    · rw [if_pos hge] at hf
      cases hf
      exact hge
    · rw [if_neg hge] at hf
      cases hf

/-- `mapSet` preserves a per-result property. -/
theorem mapSet_pres {P : SearchResult → Prop} {m : List SearchResult}
    {r : SearchResult} (hm : ∀ x ∈ m, P x) (hr : P r) :
    ∀ x ∈ mapSet m r, P x := by
  intro x hx
  unfold mapSet at hx
  split at hx
  · rw [List.mem_map] at hx
    obtain ⟨y, hy, heq⟩ := hx
    by_cases hid : y.elementId = r.elementId
    · rw [if_pos hid] at heq
      exact heq ▸ hr
    · rw [if_neg hid] at heq
      exact heq ▸ hm y hy
  · rcases List.mem_append.mp hx with hx' | hx'
    · exact hm x hx'
    · rw [List.mem_singleton] at hx'
      exact hx' ▸ hr

/-- `mergeSemantic` preserves any lower bound on `relevanceScore`: a merged
entry's score is `max` of the existing score and something, and an appended
entry is the semantic result itself. -/
theorem mergeSemantic_score {b : ℚ} {m : List SearchResult} {r : SearchResult}
    (hm : ∀ x ∈ m, b ≤ x.relevanceScore) (hr : b ≤ r.relevanceScore) :
    ∀ x ∈ mergeSemantic m r, b ≤ x.relevanceScore := by
  intro x hx
  unfold mergeSemantic at hx
  split at hx
  · rw [List.mem_map] at hx
    obtain ⟨y, hy, heq⟩ := hx
    by_cases hid : y.elementId = r.elementId
    · rw [if_pos hid] at heq
      subst heq
      exact le_trans (hm y hy) (le_max_left _ _)
    · rw [if_neg hid] at heq
      exact heq ▸ hm y hy
  · rcases List.mem_append.mp hx with hx' | hx'
    · exact hm x hx'
    · rw [List.mem_singleton] at hx'
      exact hx' ▸ hr

/-- Folding `mapSet` over score-bounded results keeps the bound. -/
theorem foldl_mapSet_score {b : ℚ} :
    ∀ (rs m : List SearchResult),
      (∀ x ∈ m, b ≤ x.relevanceScore) →
      (∀ x ∈ rs, b ≤ x.relevanceScore) →
      ∀ x ∈ rs.foldl mapSet m, b ≤ x.relevanceScore := by
  intro rs
  induction rs with
  | nil => intro m hm _ x hx; exact hm x hx
  | cons r rest ih =>
    intro m hm hrs x hx
    rw [List.foldl_cons] at hx
    exact ih (mapSet m r)
      (mapSet_pres hm (hrs r (List.mem_cons_self r rest)))
      (fun y hy => hrs y (List.mem_cons_of_mem r hy)) x hx

/-- Folding `mergeSemantic` over score-bounded results keeps the bound. -/
theorem foldl_mergeSemantic_score {b : ℚ} :
    ∀ (rs m : List SearchResult),
      (∀ x ∈ m, b ≤ x.relevanceScore) →
      (∀ x ∈ rs, b ≤ x.relevanceScore) →
      ∀ x ∈ rs.foldl mergeSemantic m, b ≤ x.relevanceScore := by
  intro rs
  induction rs with
  | nil => intro m hm _ x hx; exact hm x hx
  | cons r rest ih =>
    intro m hm hrs x hx
    rw [List.foldl_cons] at hx
    exact ih (mergeSemantic m r)
      (mergeSemantic_score hm (hrs r (List.mem_cons_self r rest)))
      (fun y hy => hrs y (List.mem_cons_of_mem r hy)) x hx

/-- `applyFilters` only ever drops results. -/
theorem mem_applyFilters {rs : List SearchResult} {f : Option SearchFilters}
    {x : SearchResult} (h : x ∈ applyFilters rs f) : x ∈ rs := by
  cases f with
  | none => exact h
  | some _ => exact (List.mem_filter.mp h).1

/-- Membership in an insertion step of the score sort. -/
theorem mem_insertByScoreDesc {r x : SearchResult} :
    ∀ {l : List SearchResult}, x ∈ insertByScoreDesc r l → x = r ∨ x ∈ l := by
  intro l
  induction l with
  | nil => intro h; rw [insertByScoreDesc] at h; simp at h; simp [h]
  | cons y ys ih =>
    intro h
    rw [insertByScoreDesc] at h
    split at h
    · rcases List.mem_cons.mp h with h' | h'
      · exact Or.inr (h' ▸ List.mem_cons_self y ys)
      · rcases ih h' with h'' | h''
        · exact Or.inl h''
        · exact Or.inr (List.mem_cons_of_mem y h'')
    · rcases List.mem_cons.mp h with h' | h'
      · exact Or.inl h'
      · exact Or.inr h'

/-- The score sort is a permutation-like operation for membership. -/
theorem mem_sortByScoreDesc {x : SearchResult} :
    ∀ {l : List SearchResult}, x ∈ sortByScoreDesc l → x ∈ l := by
  intro l
  induction l with
  | nil => intro h; simp [sortByScoreDesc] at h
  | cons y ys ih =>
    intro h
    rw [sortByScoreDesc, List.foldr_cons] at h
    rcases mem_insertByScoreDesc h with h' | h'
    · exact h' ▸ List.mem_cons_self y ys
    · exact List.mem_cons_of_mem y (ih h')

/-- Claim C9: every result returned by `search` — under any strategy, store,
configuration, oracle and query — has `relevanceScore` at least the
configured `minScore` (`0.3` when not configured): both retrieval paths drop
candidates below `this.minScore` before ranking, and the hybrid merge can
only raise a kept entry's score. -/
theorem search_scores_ge_minScore (store : List CodeRow)
    (cfg : SearchEngineConfig) (oracle : Option (List VectorHit))
    (q : SearchQuery) (r : SearchResult)
    (hr : r ∈ search store cfg oracle q) :
    cfg.minScore.getD (3 / 10) ≤ r.relevanceScore := by
  refine le_trans (getD_le_effMinScore cfg) ?_
  simp only [search] at hr
  have hr1 := mem_applyFilters (mem_sortByScoreDesc (List.mem_of_mem_take hr))
  cases hst : q.searchType with
  | text =>
    rw [hst] at hr1
    exact mem_performTextSearch_score hr1
  | semantic =>
    rw [hst] at hr1
    exact mem_performSemanticSearch_score hr1
  | hybrid =>
    rw [hst] at hr1
    unfold performHybridSearch at hr1
    exact foldl_mergeSemantic_score _ _
      (foldl_mapSet_score _ _ (by intro x hx; simp at hx)
        (fun x hx => mem_performTextSearch_score hx))
      (fun x hx => mem_performSemanticSearch_score hx) r hr1

unseal Rat.mul Rat.inv Rat.add in
/-- Witness for C9: the single result of the text query `add` over the
`rowAdd` store scores `1 ≥ 0.3`. -/
theorem search_scores_ge_minScore_witness :
    cfgDefault.minScore.getD (3 / 10)
      ≤ (SearchResult.mk (str "e1") 1 MatchType.exact (str "x") [] [] 0).relevanceScore :=
  search_scores_ge_minScore [rowAdd] cfgDefault none qAddText
    (SearchResult.mk (str "e1") 1 MatchType.exact (str "x") [] [] 0) (by decide)

/-! ## C5, amended theorem -/

/-- Membership in an insertion step of the name sort. -/
theorem mem_insertByName {r x : CodeRow} :
    ∀ {l : List CodeRow}, x ∈ insertByName r l ↔ x = r ∨ x ∈ l := by
  intro l
  induction l with
  | nil => rw [insertByName]; simp
  | cons y ys ih =>
    rw [insertByName]
    split
    · rw [List.mem_cons, ih, List.mem_cons]
      tauto
    · rw [List.mem_cons, List.mem_cons]

/-- The name sort does not change membership. -/
theorem mem_sortByName {x : CodeRow} :
    ∀ {l : List CodeRow}, x ∈ sortByName l ↔ x ∈ l := by
  intro l
  induction l with
  | nil => rw [sortByName]; simp
  | cons y ys ih =>
    rw [sortByName, List.foldr_cons]
    rw [show List.foldr insertByName [] ys = sortByName ys from rfl] at *
    rw [mem_insertByName, ih, List.mem_cons]

/-- Inserting into the name sort adds one element. -/
theorem length_insertByName (r : CodeRow) :
    ∀ (l : List CodeRow), (insertByName r l).length = l.length + 1 := by
  intro l
  induction l with
  | nil => rfl
  | cons y ys ih =>
    rw [insertByName]
    split
    · simp [ih]
    · simp

/-- The name sort preserves length. -/
theorem length_sortByName :
    ∀ (l : List CodeRow), (sortByName l).length = l.length := by
  intro l
  induction l with
  | nil => rfl
  | cons y ys ih =>
    rw [sortByName, List.foldr_cons,
      show List.foldr insertByName [] ys = sortByName ys from rfl,
      length_insertByName, ih, List.length_cons]

/-- Claim C5, amended: an element is a text-search candidate iff its name,
content or signature contains EVERY whitespace-separated query token as a
case-insensitive substring (each token may match in a different field) —
the generated SQL chains the per-token clauses with `AND`, so an element
matching one token but none of the others is NOT a candidate.  Stated for
queries without a file-type filter and stores small enough that the
`LIMIT maxResults * 2` clause drops nothing. -/
theorem candidate_iff_all_tokens (store : List CodeRow)
    (cfg : SearchEngineConfig) (q : SearchQuery) (r : CodeRow)
    (hf : q.filters = none)
    (hlen : (store.filter (fun row => rowMatchesAll row (searchTermsOf q))).length
      ≤ 2 * effMaxResults cfg) :
    r ∈ textCandidateRows store cfg q
      ↔ r ∈ store ∧ rowMatchesAll r (searchTermsOf q) = true := by
  have hpred :
      (fun row => rowMatchesAll row (searchTermsOf q) && fileTypeOK q.filters row)
        = (fun row => rowMatchesAll row (searchTermsOf q)) := by
    funext row
    rw [hf]
    simp [fileTypeOK]
  unfold textCandidateRows
  rw [hpred, List.take_of_length_le (by rw [length_sortByName]; exact hlen),
    mem_sortByName, List.mem_filter]

/-- Witness for C5's amended theorem: `rowAdd` is a candidate of the
one-token query `add` because it matches every token. -/
theorem candidate_iff_all_tokens_witness :
    rowAdd ∈ textCandidateRows [rowAdd] cfgDefault qAddText
      ↔ rowAdd ∈ [rowAdd] ∧ rowMatchesAll rowAdd (searchTermsOf qAddText) = true :=
  candidate_iff_all_tokens [rowAdd] cfgDefault qAddText rowAdd (by decide)
    (by decide)

/-! ## C10, amended theorem -/

/-- A successful prefix test bounds the pattern's length. -/
theorem strStartsWith_length_le :
    ∀ {a b : Str}, strStartsWith a b = true → b.length ≤ a.length := by
  intro a b
  induction b generalizing a with
  | nil => intro _; simp
  | cons c cs ih =>
    intro h
    cases a with
    | nil => simp [strStartsWith] at h
    | cons x xs =>
      rw [strStartsWith, Bool.and_eq_true] at h
      simpa using ih h.2

/-- Membership in an insertion step of the start sort. -/
theorem mem_insertByStart {r x : TextHighlight} :
    ∀ {l : List TextHighlight}, x ∈ insertByStart r l → x = r ∨ x ∈ l := by
  intro l
  induction l with
  | nil => intro h; rw [insertByStart] at h; simp at h; simp [h]
  | cons y ys ih =>
    intro h
    rw [insertByStart] at h
    split at h
    · rcases List.mem_cons.mp h with h' | h'
      · exact Or.inr (h' ▸ List.mem_cons_self y ys)
      · rcases ih h' with h'' | h''
        · exact Or.inl h''
        · exact Or.inr (List.mem_cons_of_mem y h'')
    · rcases List.mem_cons.mp h with h' | h'
      · exact Or.inl h'
      · exact Or.inr h'

/-- The start sort only permutes the spans. -/
theorem mem_sortByStart {x : TextHighlight} :
    ∀ {l : List TextHighlight}, x ∈ sortByStart l → x ∈ l := by
  intro l
  induction l with
  | nil => intro h; simp [sortByStart] at h
  | cons y ys ih =>
    intro h
    rw [sortByStart, List.foldr_cons] at h
    rcases mem_insertByStart h with h' | h'
    · exact h' ▸ List.mem_cons_self y ys
    · exact List.mem_cons_of_mem y (ih h')

/-- Every raw span of `generateHighlights` carries exactly the matched
substring: its text is `content[start .. start+len)` and its end is
`start + len`. -/
theorem raw_spans_exact (query content : Str) :
    ∀ h ∈ (jsSplitWS (lowerStr query)).flatMap (fun term =>
      (occurrences (lowerStr content) term).map (fun i =>
        (⟨i, i + term.length, (content.drop i).take term.length⟩ : TextHighlight))),
      h.text = (content.drop h.start).take h.text.length
        ∧ h.stop = h.start + h.text.length := by
  intro h hmem
  rw [List.mem_flatMap] at hmem
  obtain ⟨term, _, hmem'⟩ := hmem
  rw [List.mem_map] at hmem'
  obtain ⟨i, hi, heq⟩ := hmem'
  rw [occurrences, List.mem_filter] at hi
  have hlen : term.length ≤ content.length - i := by
    have := strStartsWith_length_le hi.2
    simpa [lowerStr] using this
  have htext : ((content.drop i).take term.length).length = term.length := by
    rw [List.length_take, List.length_drop]
    omega
  subst heq
  refine ⟨?_, ?_⟩
  · simp only [htext]
  · simp only [htext]

/-- The merge loop of `mergeHighlights` preserves the weakened span
property: the text is the prefix `content[start .. start+len)` of the span,
with `start + len ≤ stop`.  On a merge the source appends
`next.text.substring(newEnd - next.start)` for the ALREADY-updated
`newEnd ≥ next.end`, and that suffix is always empty, so the accumulated
text never grows. -/
theorem mergeLoop_text_pres (content : Str) :
    ∀ (l : List TextHighlight) (cur : TextHighlight),
      (cur.text = (content.drop cur.start).take cur.text.length
        ∧ cur.start + cur.text.length ≤ cur.stop) →
      (∀ x ∈ l, x.text = (content.drop x.start).take x.text.length
        ∧ x.stop = x.start + x.text.length) →
      ∀ h ∈ mergeLoop cur l,
        h.text = (content.drop h.start).take h.text.length
          ∧ h.start + h.text.length ≤ h.stop := by
  intro l
  induction l with
  | nil =>
    intro cur hcur _ h hmem
    rw [mergeLoop] at hmem
    rw [List.mem_singleton] at hmem
    exact hmem ▸ hcur
  | cons next rest ih =>
    intro cur hcur hl h hmem
    rw [mergeLoop] at hmem
    split at hmem
    · have hnext := hl next (List.mem_cons_self next rest)
      have hdrop : next.text.drop (max cur.stop next.stop - next.start) = [] := by
        apply List.drop_eq_nil_of_le
        have hlen : next.text.length = next.stop - next.start := by
          have := congrArg List.length hnext.1
          rw [List.length_take, List.length_drop] at this
          omega
        have : next.stop ≤ max cur.stop next.stop := le_max_right _ _
        omega
      refine ih _ ?_ (fun x hx => hl x (List.mem_cons_of_mem next hx)) h hmem
      refine ⟨?_, ?_⟩
      · simp only [hdrop, List.append_nil]
        exact hcur.1
      · simp only [hdrop, List.append_nil]
        exact le_trans hcur.2 (le_max_left _ _)
    · rcases List.mem_cons.mp hmem with h' | h'
      · exact h' ▸ hcur
      · have hnext := hl next (List.mem_cons_self next rest)
        exact ih next ⟨hnext.1, le_of_eq hnext.2.symm⟩
          (fun x hx => hl x (List.mem_cons_of_mem next hx)) h h'

/-- Claim C10, amended: for every highlight span `(start, stop, text)` that
`generateHighlights` attaches to a lexical result, `text` equals the
substring `content[start .. start + text.length)` and
`start + text.length ≤ stop`.  The claim's stronger form — `text` equals the
full substring `content[start .. stop)` — fails for merged spans: the merge
keeps only the first span's text while extending `stop` (see the
counterexample), so the text is in general only a prefix of the claimed
substring. -/
theorem highlight_text_prefix (query content : Str) (h : TextHighlight)
    (hmem : h ∈ generateHighlights query content) :
    h.text = (content.drop h.start).take h.text.length
      ∧ h.start + h.text.length ≤ h.stop := by
  unfold generateHighlights at hmem
  set spans := (jsSplitWS (lowerStr query)).flatMap (fun term =>
    (occurrences (lowerStr content) term).map (fun i =>
      (⟨i, i + term.length, (content.drop i).take term.length⟩ : TextHighlight)))
    with hspans
  have hsorted : ∀ x ∈ sortByStart spans,
      x.text = (content.drop x.start).take x.text.length
        ∧ x.stop = x.start + x.text.length := by
    intro x hx
    exact raw_spans_exact query content x (mem_sortByStart hx)
  rw [mergeHighlights.eq_def] at hmem
  split at hmem
  · simp at hmem
  · rename_i l h0 rest heq
    have h0ok := hsorted h0 (by rw [heq]; exact List.mem_cons_self h0 rest)
    have hrest : ∀ x ∈ rest,
        x.text = (content.drop x.start).take x.text.length
          ∧ x.stop = x.start + x.text.length := by
      intro x hx
      exact hsorted x (by rw [heq]; exact List.mem_cons_of_mem h0 hx)
    exact mergeLoop_text_pres content rest h0
      ⟨h0ok.1, le_of_eq h0ok.2.symm⟩ hrest h hmem

unseal Rat.mul Rat.inv Rat.add in
/-- Witness for C10's amended theorem: the merged span `(0, 3, "aa")` of
searching `aa` in `aaa` carries the prefix `content[0..2)`. -/
theorem highlight_text_prefix_witness :
    (⟨0, 3, str "aa"⟩ : TextHighlight).text
        = ((str "aaa").drop (⟨0, 3, str "aa"⟩ : TextHighlight).start).take
            (⟨0, 3, str "aa"⟩ : TextHighlight).text.length
      ∧ (⟨0, 3, str "aa"⟩ : TextHighlight).start
          + (⟨0, 3, str "aa"⟩ : TextHighlight).text.length
        ≤ (⟨0, 3, str "aa"⟩ : TextHighlight).stop :=
  highlight_text_prefix (str "aa") (str "aaa") ⟨0, 3, str "aa"⟩ (by decide)
